import Mathlib

/-!
Shallow embedding of the syzkaller in-VM fuzzer worker
(`src/syz-fuzzer/fuzzer.go`): the shared corpus/signal state with
`addInput`, the poll-absorption and drain operations of the pollster
loop, `buildCallList`, candidate handling, and the `allTriaged` latch.

Modelling conventions:
- program bytes are a `List Nat`;
- a deserialized program (`*prog.Prog`) is also represented by its bytes,
  with `target.Deserialize` an abstract fallible function
  `deser : Bytes → Option Bytes` quantified in the theorems;
- `hash.Sig` is an abstract `Nat`, with `hash.Hash` an abstract function
  `hashFn : Bytes → Nat`;
- Go maps used as sets (`map[uint32]struct{}`, `map[hash.Sig]struct{}`,
  coverage tokens) become `Finset Nat`;
- a Go `panic` becomes `Option.none` of the modelled operation.
-/

set_option autoImplicit false

namespace SyzFuzzer

/-- Serialized program bytes (the opaque `[]byte` of an `RpcInput`/`RpcCandidate`). -/
abbrev Bytes := List Nat

/-- Go `rpctype.RpcInput` restricted to the fields `addInput` reads:
the serialized program and its coverage signal (`[]uint32`).
The `Call`/`CallIndex`/`Cover` fields are never read by the embedded code. -/
structure RpcInput where
  prog : Bytes
  signal : List Nat
deriving DecidableEq

/-- Go `rpctype.RpcCandidate`: serialized program plus the `Minimized` flag. -/
structure Candidate where
  prog : Bytes
  minimized : Bool
deriving DecidableEq

/-- Go `rpctype.PollRes` restricted to the fields the poll loop reads. -/
structure PollRes where
  maxSignal : List Nat
  newInputs : List RpcInput
  candidates : List Candidate
deriving DecidableEq

/-- The shared mutable globals of the worker in `fuzzer.go` (lines 43-60), plus the
work queue contents (only its enqueue of `WorkCandidate{p, minimized}` is
visible in this file). `noCover` is set once at bootstrap (line 163). -/
structure State where
  corpus : List Bytes
  corpusHashes : Finset Nat
  corpusSignal : Finset Nat
  maxSignal : Finset Nat
  newSignal : Finset Nat
  workQueue : List (Bytes × Bool)
  noCover : Bool
  allTriaged : Nat
deriving DecidableEq

/-- The globals right after `main` initializes the maps (lines 126-129):
all sets empty, corpus empty, `allTriaged` at its Go zero value 0. -/
def initState (noCover : Bool) : State :=
  { corpus := []
    corpusHashes := ∅
    corpusSignal := ∅
    maxSignal := ∅
    newSignal := ∅
    workQueue := []
    noCover := noCover
    allTriaged := 0 }

/-- Modelled from the spec: `signal_diff_vs_max(s) → s'` of the external
`pkg/cover` package (`cover.SignalDiff`, not under src/) — the tokens of the
input signal that are absent from the given base set. -/
def SignalDiff (base : Finset Nat) (sig : List Nat) : List Nat :=
  sig.filter (fun s => decide (s ∉ base))

/-- Modelled from the spec: `extend_max(s') / extend_corpus_signal(s')` of the
external `pkg/cover` package (`cover.SignalAdd`, not under src/) — insert
every listed token into the base set. -/
def SignalAdd (base : Finset Nat) (sig : List Nat) : Finset Nat :=
  sig.foldl (fun b s => insert s b) base

/-- Go `addInput` (fuzzer.go lines 386-408). Returns `none` where the Go code
panics: when coverage is disabled, or when deserialization fails. -/
def addInput (deser : Bytes → Option Bytes) (hashFn : Bytes → Nat)
    (st : State) (inp : RpcInput) : Option State :=
  if st.noCover then none
  else
    match deser inp.prog with
    | none => none
    | some p =>
      let sig := hashFn inp.prog
      let st1 :=
        if sig ∈ st.corpusHashes then st
        else { st with corpus := st.corpus ++ [p]
                       corpusHashes := insert sig st.corpusHashes }
      let diff := SignalDiff st1.maxSignal inp.signal
      some (if diff.length ≠ 0 then
        { st1 with corpusSignal := SignalAdd st1.corpusSignal diff
                   maxSignal := SignalAdd st1.maxSignal diff }
      else st1)

/-- The successful branch of `addInput`, as a total function of the already
deserialized program `p`. `addInput_eq` proves it is exactly what `addInput`
computes. -/
def addInputPure (hashFn : Bytes → Nat) (st : State) (inp : RpcInput)
    (p : Bytes) : State :=
  let sig := hashFn inp.prog
  let st1 :=
    if sig ∈ st.corpusHashes then st
    else { st with corpus := st.corpus ++ [p]
                   corpusHashes := insert sig st.corpusHashes }
  let diff := SignalDiff st1.maxSignal inp.signal
  if diff.length ≠ 0 then
    { st1 with corpusSignal := SignalAdd st1.corpusSignal diff
               maxSignal := SignalAdd st1.maxSignal diff }
  else st1

/-- The `for _, inp := range r.NewInputs { addInput(inp) }` loop
(lines 139-141 at bootstrap, lines 320-322 in the poll loop). -/
def addInputs (deser : Bytes → Option Bytes) (hashFn : Bytes → Nat)
    (st : State) : List RpcInput → Option State
  | [] => some st
  | inp :: rest =>
    (addInput deser hashFn st inp).bind fun st' => addInputs deser hashFn st' rest

/-- Absorption of manager-returned max signal (lines 313-319; the same loop
runs unguarded at bootstrap, lines 142-144). -/
def absorbMaxSignal (st : State) (sigs : List Nat) : State :=
  if sigs.length ≠ 0 then { st with maxSignal := SignalAdd st.maxSignal sigs }
  else st

/-- The drain of `newSignal` into the outgoing `a.MaxSignal` payload
(lines 282-288): the payload receives the current tokens and the set is
reset to a fresh empty map. The payload is modelled as the drained set
(the Go slice lists its elements in map-iteration order). -/
def drainNewSignal (st : State) : Finset Nat × State :=
  (st.newSignal, { st with newSignal := ∅ })

/-- Modelled from the spec: publication of newly observed signal by the proc
triage step (proc code is not under src/): "Add the minimized program to the
corpus; extend `max`, `corpus_signal`, and `new_signal` by the stable diff",
restricted here to its signal-set effect. -/
def publishNewSignal (st : State) (tokens : List Nat) : State :=
  { st with newSignal := SignalAdd st.newSignal tokens
            maxSignal := SignalAdd st.maxSignal tokens
            corpusSignal := SignalAdd st.corpusSignal tokens }

/-- A sequence of publications between two drains. -/
def publishAll (st : State) : List (List Nat) → State
  | [] => st
  | ts :: rest => publishAll (publishNewSignal st ts) rest

/-- One candidate from the manager (lines 323-335 in the poll loop; the
bootstrap loop at lines 232-244 is textually identical): deserialize
(fatal on failure); with coverage disabled append to the corpus directly,
otherwise enqueue a `WorkCandidate{p, candidate.Minimized}`. -/
def handleCandidate (deser : Bytes → Option Bytes) (st : State)
    (c : Candidate) : Option State :=
  match deser c.prog with
  | none => none
  | some p =>
    if st.noCover then some { st with corpus := st.corpus ++ [p] }
    else some { st with workQueue := st.workQueue ++ [(p, c.minimized)] }

/-- The `for _, candidate := range r.Candidates` loop. -/
def handleCandidates (deser : Bytes → Option Bytes) (st : State) :
    List Candidate → Option State
  | [] => some st
  | c :: rest =>
    (handleCandidate deser st c).bind fun st' => handleCandidates deser st' rest

/-- Deserialization of a whole candidate list, used to state what the
candidate loop appends. -/
def deserAll (deser : Bytes → Option Bytes) : List Candidate → Option (List Bytes)
  | [] => some []
  | c :: rest =>
    match deser c.prog, deserAll deser rest with
    | some p, some ps => some (p :: ps)
    | _, _ => none

/-- Lines 336-341: if the poll returned no candidates and `allTriaged` is
still 0, run the baseline leak scan (`kmemleakScan(false)`) when leak mode
is on, then store 1. The returned Bool records whether the baseline scan
ran. -/
def updateAllTriaged (flagLeak : Bool) (st : State)
    (candidates : List Candidate) : State × Bool :=
  if candidates.length = 0 ∧ st.allTriaged = 0 then
    ({ st with allTriaged := 1 }, flagLeak)
  else (st, false)

/-- The periodic gate callback (lines 213-218): returns whether
`kmemleakScan(true)` is invoked, given the current `allTriaged` value. -/
def leakCallback (allTriaged : Nat) : Bool :=
  decide (allTriaged ≠ 0)

/-- What one iteration of the poll loop does with a received `PollRes`
(lines 313-344): absorb max signal, feed every input through `addInput`,
handle every candidate, update `allTriaged`. `recordLastPoll` reports
whether line 343 (`lastPoll = time.Now()`) executes. -/
structure PollOutcome where
  state : State
  baselineScan : Bool
  recordLastPoll : Bool
deriving DecidableEq

/-- Processing of one poll result (lines 313-344). `none` where the Go code
panics (a failed deserialization inside `addInput` or the candidate loop). -/
def handlePollResult (deser : Bytes → Option Bytes) (hashFn : Bytes → Nat)
    (flagLeak : Bool) (st : State) (r : PollRes) : Option PollOutcome :=
  (addInputs deser hashFn (absorbMaxSignal st r.maxSignal) r.newInputs).bind fun st1 =>
  (handleCandidates deser st1 r.candidates).bind fun st2 =>
  some { state := (updateAllTriaged flagLeak st2 r.candidates).1
         baselineScan := (updateAllTriaged flagLeak st2 r.candidates).2
         recordLastPoll := decide (r.newInputs.length = 0 ∧ r.candidates.length = 0) }

/-- A whole sequence of performed polls, tracking only the state. -/
def runPolls (deser : Bytes → Option Bytes) (hashFn : Bytes → Nat)
    (flagLeak : Bool) (st : State) : List PollRes → Option State
  | [] => some st
  | r :: rest =>
    (handlePollResult deser hashFn flagLeak st r).bind fun o =>
      runPolls deser hashFn flagLeak o.state rest

/-- One operation of the signal-state machine of claim C1: an `addInput`
call or an absorption of manager-returned max signal. -/
inductive Op where
  | add (inp : RpcInput)
  | absorb (sigs : List Nat)
deriving DecidableEq

/-- Apply one operation (an `addInput` may panic, hence `Option`). -/
def applyOp (deser : Bytes → Option Bytes) (hashFn : Bytes → Nat)
    (st : State) : Op → Option State
  | Op.add inp => addInput deser hashFn st inp
  | Op.absorb sigs => some (absorbMaxSignal st sigs)

/-- Run a sequence of operations. -/
def runOps (deser : Bytes → Option Bytes) (hashFn : Bytes → Nat)
    (st : State) : List Op → Option State
  | [] => some st
  | op :: rest =>
    (applyOp deser hashFn st op).bind fun st' => runOps deser hashFn st' rest

/-- The decision of one wake of the poll loop (lines 259-275): given whether
the wake came from the `needPoll` pulse (`poll := true` at line 264), the
value `fuzzer.workQueue.wantCandidates()` would return, and whether more
than 10 seconds elapsed since `lastPoll`, returns whether the RPC
`Manager.Poll` is performed on this iteration. -/
def pollDecision (needPollFired wantCandidates elapsedOver10s : Bool) : Bool :=
  if needPollFired || elapsedOver10s then
    if needPollFired && !wantCandidates then false
    else true
  else false

/-- The poll condition as the specification sentence words it: poll "if
`need_poll` fired, or if `want_candidates` is true, or if at least 10 s
have elapsed since the last poll". Stated only to be compared with
`pollDecision`, the condition the code implements. -/
def specPollCondition (needPollFired wantCandidates elapsedOver10s : Bool) : Bool :=
  needPollFired || wantCandidates || elapsedOver10s

/-- One full iteration of the poll loop as far as `lastPoll` is concerned:
returns the new state, the new `lastPoll` value and whether the RPC was
performed. `now` and `lastPoll` are instants; `elapsedOver10s` abstracts
the comparison `time.Since(lastPoll) > 10*time.Second` at line 271. -/
def pollsterIteration (deser : Bytes → Option Bytes) (hashFn : Bytes → Nat)
    (flagLeak : Bool) (st : State) (needPollFired wantCandidates elapsedOver10s : Bool)
    (lastPoll now : Nat) (r : PollRes) : Option (State × Nat × Bool) :=
  if pollDecision needPollFired wantCandidates elapsedOver10s then
    (handlePollResult deser hashFn flagLeak st r).map fun o =>
      (o.state, if o.recordLastPoll then now else lastPoll, true)
  else some (st, lastPoll, false)

/-- A Go string, modelled as its list of characters. -/
abbrev GoString := List Char

/-- Go `strings.Split(s, ",")`: split on every comma; the empty string
yields one empty field. -/
def splitOnComma : GoString → List GoString
  | [] => [[]]
  | c :: rest =>
    if c = ',' then [] :: splitOnComma rest
    else
      match splitOnComma rest with
      | [] => [[c]]
      | w :: ws => (c :: w) :: ws

/-- Go `strconv.ParseUint(id, 10, 64)`: decimal digits only, non-empty,
no sign, value below `2^64`; `none` models a non-nil error. -/
def parseUint64 (s : GoString) : Option Nat :=
  if s = [] then none
  else if s.all Char.isDigit then
    let n := s.foldl (fun acc c => acc * 10 + (c.toNat - 48)) 0
    if n < 2 ^ 64 then some n else none
  else none

/-- The parsing loop of `buildCallList` (lines 352-358): each comma-separated
id must parse and be below the number of target syscalls, otherwise the Go
code panics (`none` here). Syscalls are modelled by their index into
`target.Syscalls`. -/
def parseEnabledList (numSyscalls : Nat) : List GoString → Option (Finset Nat)
  | [] => some ∅
  | id :: rest =>
    match parseUint64 id with
    | none => none
    | some n =>
      if numSyscalls ≤ n then none
      else (parseEnabledList numSyscalls rest).map (fun s => insert n s)

/-- Go `buildCallList` (lines 349-384). `numSyscalls` is
`len(target.Syscalls)`; `supp` is the result of
`host.DetectSupportedSyscalls` (`none` models a detection error, in which
case the Go code only logs and skips the support filter); `transF` models
the external `target.TransitivelyEnabledCalls`. -/
def buildCallList (numSyscalls : Nat) (enabledCalls : GoString)
    (supp : Option (Finset Nat)) (transF : Finset Nat → Finset Nat) :
    Option (Finset Nat) :=
  let init : Option (Finset Nat) :=
    if enabledCalls ≠ [] then
      parseEnabledList numSyscalls (splitOnComma enabledCalls)
    else
      some (Finset.range numSyscalls)
  init.map fun calls0 =>
    let calls1 :=
      match supp with
      | none => calls0
      | some s => calls0.filter (fun c => c ∈ s)
    calls1.filter (fun c => c ∈ transF calls1)

/-! Basic lemmas about the modelled `pkg/cover` set operations. -/

theorem SignalAdd_nil (base : Finset Nat) : SignalAdd base [] = base := rfl

theorem SignalAdd_cons (base : Finset Nat) (s : Nat) (t : List Nat) :
    SignalAdd base (s :: t) = SignalAdd (insert s base) t := rfl

theorem mem_SignalAdd : ∀ (sig : List Nat) (base : Finset Nat) (x : Nat),
    x ∈ SignalAdd base sig ↔ x ∈ base ∨ x ∈ sig
  | [], base, x => by simp [SignalAdd]
  | s :: t, base, x => by
    rw [SignalAdd_cons, mem_SignalAdd t]
    simp only [Finset.mem_insert, List.mem_cons]
    tauto

theorem subset_SignalAdd (base : Finset Nat) (sig : List Nat) :
    base ⊆ SignalAdd base sig :=
  fun x hx => (mem_SignalAdd sig base x).mpr (Or.inl hx)

theorem mem_SignalDiff (base : Finset Nat) (sig : List Nat) (x : Nat) :
    x ∈ SignalDiff base sig ↔ x ∈ sig ∧ x ∉ base := by
  simp [SignalDiff, List.mem_filter]

theorem SignalDiff_length_zero (base : Finset Nat) (sig : List Nat) :
    (SignalDiff base sig).length = 0 ↔ ∀ x ∈ sig, x ∈ base := by
  rw [List.length_eq_zero]
  constructor
  · intro h x hx
    by_contra hb
    have : x ∈ SignalDiff base sig := (mem_SignalDiff base sig x).mpr ⟨hx, hb⟩
    rw [h] at this
    exact absurd this (List.not_mem_nil x)
  · intro h
    cases hd : SignalDiff base sig with
    | nil => rfl
    | cons y t =>
      have : y ∈ SignalDiff base sig := by rw [hd]; exact List.mem_cons_self y t
      have := (mem_SignalDiff base sig y).mp this
      exact absurd (h y this.1) this.2

/-! Case analysis of `addInput`. -/

theorem addInput_none_iff (deser : Bytes → Option Bytes) (hashFn : Bytes → Nat)
    (st : State) (inp : RpcInput) :
    addInput deser hashFn st inp = none ↔
      st.noCover = true ∨ deser inp.prog = none := by
  unfold addInput
  by_cases nc : st.noCover = true
  · simp [nc]
  · cases hd : deser inp.prog <;> simp [nc, hd]

theorem addInput_eq (deser : Bytes → Option Bytes) (hashFn : Bytes → Nat)
    (st : State) (inp : RpcInput) :
    addInput deser hashFn st inp =
      if st.noCover = true then none
      else
        match deser inp.prog with
        | none => none
        | some p => some (addInputPure hashFn st inp p) := rfl

theorem addInput_some_elim {deser : Bytes → Option Bytes} {hashFn : Bytes → Nat}
    {st : State} {inp : RpcInput} {st' : State}
    (h : addInput deser hashFn st inp = some st') :
    st.noCover = false ∧
      ∃ p, deser inp.prog = some p ∧ st' = addInputPure hashFn st inp p := by
  rw [addInput_eq] at h
  by_cases nc : st.noCover = true
  · rw [if_pos nc] at h
    exact absurd h (by simp)
  · rw [if_neg nc] at h
    cases hd : deser inp.prog with
    | none => rw [hd] at h; exact absurd h (by simp)
    | some p =>
      rw [hd] at h
      simp only [Option.some.injEq] at h
      exact ⟨Bool.not_eq_true _ |>.mp nc, p, rfl, h.symm⟩

theorem addInputPure_st1_maxSignal (hashFn : Bytes → Nat) (st : State)
    (inp : RpcInput) (p : Bytes) :
    (if hashFn inp.prog ∈ st.corpusHashes then st
     else { st with corpus := st.corpus ++ [p]
                    corpusHashes := insert (hashFn inp.prog) st.corpusHashes
          }).maxSignal = st.maxSignal := by
  by_cases hmem : hashFn inp.prog ∈ st.corpusHashes <;> simp [hmem]

theorem addInputPure_frame (hashFn : Bytes → Nat) (st : State) (inp : RpcInput)
    (p : Bytes) :
    (addInputPure hashFn st inp p).noCover = st.noCover ∧
    (addInputPure hashFn st inp p).newSignal = st.newSignal ∧
    (addInputPure hashFn st inp p).workQueue = st.workQueue ∧
    (addInputPure hashFn st inp p).allTriaged = st.allTriaged := by
  unfold addInputPure
  by_cases hmem : hashFn inp.prog ∈ st.corpusHashes <;>
    by_cases hlen : (SignalDiff st.maxSignal inp.signal).length ≠ 0 <;>
    simp [hmem, hlen]

theorem addInputPure_maxSignal (hashFn : Bytes → Nat) (st : State)
    (inp : RpcInput) (p : Bytes) (t : Nat) :
    t ∈ (addInputPure hashFn st inp p).maxSignal ↔
      t ∈ st.maxSignal ∨ t ∈ inp.signal := by
  unfold addInputPure
  by_cases hmem : hashFn inp.prog ∈ st.corpusHashes <;>
    by_cases hlen : (SignalDiff st.maxSignal inp.signal).length ≠ 0
  · simp only [hmem, if_true, if_pos hlen, mem_SignalAdd, mem_SignalDiff]
    tauto
  · have hall := (SignalDiff_length_zero st.maxSignal inp.signal).mp (by omega)
    simp only [hmem, if_true, if_neg hlen]
    exact ⟨Or.inl, fun h => h.elim id fun hs => hall t hs⟩
  · simp only [hmem, if_false]
    simp only [addInputPure_st1_maxSignal hashFn st inp p] at *
    rw [if_pos hlen]
    simp only [mem_SignalAdd, mem_SignalDiff]
    tauto
  · have hall := (SignalDiff_length_zero st.maxSignal inp.signal).mp (by omega)
    simp only [hmem, if_false]
    simp only [addInputPure_st1_maxSignal hashFn st inp p] at *
    rw [if_neg hlen]
    exact ⟨Or.inl, fun h => h.elim id fun hs => hall t hs⟩

theorem addInputPure_corpusSignal (hashFn : Bytes → Nat) (st : State)
    (inp : RpcInput) (p : Bytes) (t : Nat) :
    t ∈ (addInputPure hashFn st inp p).corpusSignal ↔
      t ∈ st.corpusSignal ∨ (t ∈ inp.signal ∧ t ∉ st.maxSignal) := by
  unfold addInputPure
  by_cases hmem : hashFn inp.prog ∈ st.corpusHashes <;>
    by_cases hlen : (SignalDiff st.maxSignal inp.signal).length ≠ 0
  · simp only [hmem, if_true, if_pos hlen, mem_SignalAdd, mem_SignalDiff]
  · have hall := (SignalDiff_length_zero st.maxSignal inp.signal).mp (by omega)
    simp only [hmem, if_true, if_neg hlen]
    exact ⟨Or.inl, fun h => h.elim id fun hs => absurd (hall t hs.1) hs.2⟩
  · simp only [hmem, if_false]
    simp only [addInputPure_st1_maxSignal hashFn st inp p] at *
    rw [if_pos hlen]
    simp only [mem_SignalAdd, mem_SignalDiff]
  · have hall := (SignalDiff_length_zero st.maxSignal inp.signal).mp (by omega)
    simp only [hmem, if_false]
    simp only [addInputPure_st1_maxSignal hashFn st inp p] at *
    rw [if_neg hlen]
    exact ⟨Or.inl, fun h => h.elim id fun hs => absurd (hall t hs.1) hs.2⟩

theorem addInputPure_corpus_dup (hashFn : Bytes → Nat) (st : State)
    (inp : RpcInput) (p : Bytes) (hdup : hashFn inp.prog ∈ st.corpusHashes) :
    (addInputPure hashFn st inp p).corpus = st.corpus ∧
    (addInputPure hashFn st inp p).corpusHashes = st.corpusHashes := by
  unfold addInputPure
  by_cases hlen : (SignalDiff st.maxSignal inp.signal).length ≠ 0 <;>
    simp [hdup, hlen]

theorem addInputPure_corpus_fresh (hashFn : Bytes → Nat) (st : State)
    (inp : RpcInput) (p : Bytes) (hnew : hashFn inp.prog ∉ st.corpusHashes) :
    (addInputPure hashFn st inp p).corpus = st.corpus ++ [p] ∧
    (addInputPure hashFn st inp p).corpusHashes =
      insert (hashFn inp.prog) st.corpusHashes := by
  unfold addInputPure
  simp only [hnew, if_false]
  by_cases hlen : (SignalDiff st.maxSignal inp.signal).length ≠ 0 <;>
    simp [hnew, hlen, addInputPure_st1_maxSignal]

theorem addInput_maxSignal_mono {deser : Bytes → Option Bytes}
    {hashFn : Bytes → Nat} {st : State} {inp : RpcInput} {st' : State}
    (h : addInput deser hashFn st inp = some st') :
    st.maxSignal ⊆ st'.maxSignal := by
  obtain ⟨-, p, -, rfl⟩ := addInput_some_elim h
  intro t ht
  exact (addInputPure_maxSignal hashFn st inp p t).mpr (Or.inl ht)

theorem addInput_invariant {deser : Bytes → Option Bytes}
    {hashFn : Bytes → Nat} {st : State} {inp : RpcInput} {st' : State}
    (h : addInput deser hashFn st inp = some st')
    (hinv : st.corpusSignal ⊆ st.maxSignal) :
    st'.corpusSignal ⊆ st'.maxSignal := by
  obtain ⟨-, p, -, rfl⟩ := addInput_some_elim h
  intro t ht
  rw [addInputPure_corpusSignal] at ht
  rw [addInputPure_maxSignal]
  rcases ht with ht | ht
  · exact Or.inl (hinv ht)
  · exact Or.inr ht.1

/-! Lemmas about the absorption of manager-returned max signal. -/

theorem absorbMaxSignal_maxSignal_mem (st : State) (sigs : List Nat) (t : Nat) :
    t ∈ (absorbMaxSignal st sigs).maxSignal ↔ t ∈ st.maxSignal ∨ t ∈ sigs := by
  unfold absorbMaxSignal
  by_cases h : sigs.length ≠ 0
  · rw [if_pos h]
    simp [mem_SignalAdd]
  · rw [if_neg h]
    have hnil : sigs = [] := List.length_eq_zero.mp (by omega)
    subst hnil
    simp

theorem absorbMaxSignal_frame (st : State) (sigs : List Nat) :
    (absorbMaxSignal st sigs).corpus = st.corpus ∧
    (absorbMaxSignal st sigs).corpusHashes = st.corpusHashes ∧
    (absorbMaxSignal st sigs).corpusSignal = st.corpusSignal ∧
    (absorbMaxSignal st sigs).newSignal = st.newSignal ∧
    (absorbMaxSignal st sigs).workQueue = st.workQueue ∧
    (absorbMaxSignal st sigs).noCover = st.noCover ∧
    (absorbMaxSignal st sigs).allTriaged = st.allTriaged := by
  unfold absorbMaxSignal
  by_cases h : sigs.length ≠ 0 <;> simp [h]

/-! The signal-state machine of claim C1. -/

theorem applyOp_maxSignal_mono {deser : Bytes → Option Bytes}
    {hashFn : Bytes → Nat} {st : State} {op : Op} {st' : State}
    (h : applyOp deser hashFn st op = some st') :
    st.maxSignal ⊆ st'.maxSignal := by
  cases op with
  | add inp => exact addInput_maxSignal_mono h
  | absorb sigs =>
    simp only [applyOp, Option.some.injEq] at h
    subst h
    intro t ht
    exact (absorbMaxSignal_maxSignal_mem st sigs t).mpr (Or.inl ht)

theorem applyOp_invariant {deser : Bytes → Option Bytes}
    {hashFn : Bytes → Nat} {st : State} {op : Op} {st' : State}
    (h : applyOp deser hashFn st op = some st')
    (hinv : st.corpusSignal ⊆ st.maxSignal) :
    st'.corpusSignal ⊆ st'.maxSignal := by
  cases op with
  | add inp => exact addInput_invariant h hinv
  | absorb sigs =>
    simp only [applyOp, Option.some.injEq] at h
    subst h
    intro t ht
    rw [(absorbMaxSignal_frame st sigs).2.2.1] at ht
    exact (absorbMaxSignal_maxSignal_mem st sigs t).mpr (Or.inl (hinv ht))

theorem runOps_maxSignal_mono {deser : Bytes → Option Bytes}
    {hashFn : Bytes → Nat} :
    ∀ {ops : List Op} {st st' : State},
      runOps deser hashFn st ops = some st' → st.maxSignal ⊆ st'.maxSignal
  | [], st, st', h => by
    simp only [runOps, Option.some.injEq] at h
    subst h
    exact Finset.Subset.refl _
  | op :: rest, st, st', h => by
    simp only [runOps] at h
    cases hop : applyOp deser hashFn st op with
    | none => rw [hop] at h; exact absurd h (by simp)
    | some mid =>
      rw [hop] at h
      simp only [Option.some_bind] at h
      exact (applyOp_maxSignal_mono hop).trans (runOps_maxSignal_mono h)

theorem runOps_invariant {deser : Bytes → Option Bytes}
    {hashFn : Bytes → Nat} :
    ∀ {ops : List Op} {st st' : State},
      runOps deser hashFn st ops = some st' →
      st.corpusSignal ⊆ st.maxSignal → st'.corpusSignal ⊆ st'.maxSignal
  | [], st, st', h, hinv => by
    simp only [runOps, Option.some.injEq] at h
    subst h
    exact hinv
  | op :: rest, st, st', h, hinv => by
    simp only [runOps] at h
    cases hop : applyOp deser hashFn st op with
    | none => rw [hop] at h; exact absurd h (by simp)
    | some mid =>
      rw [hop] at h
      simp only [Option.some_bind] at h
      exact runOps_invariant h (applyOp_invariant hop hinv)

theorem runOps_append (deser : Bytes → Option Bytes) (hashFn : Bytes → Nat) :
    ∀ (pre suf : List Op) (st : State),
      runOps deser hashFn st (pre ++ suf) =
        (runOps deser hashFn st pre).bind fun mid => runOps deser hashFn mid suf
  | [], suf, st => by simp [runOps]
  | op :: rest, suf, st => by
    simp only [List.cons_append, runOps]
    cases applyOp deser hashFn st op with
    | none => simp
    | some mid =>
      simp only [Option.some_bind]
      exact runOps_append deser hashFn rest suf mid

/-! Lemmas about the input loop. -/

theorem addInputs_frame {deser : Bytes → Option Bytes} {hashFn : Bytes → Nat} :
    ∀ {inps : List RpcInput} {st st' : State},
      addInputs deser hashFn st inps = some st' →
      st'.noCover = st.noCover ∧ st'.newSignal = st.newSignal ∧
      st'.workQueue = st.workQueue ∧ st'.allTriaged = st.allTriaged
  | [], st, st', h => by
    simp only [addInputs, Option.some.injEq] at h
    subst h
    exact ⟨rfl, rfl, rfl, rfl⟩
  | inp :: rest, st, st', h => by
    simp only [addInputs] at h
    cases hop : addInput deser hashFn st inp with
    | none => rw [hop] at h; exact absurd h (by simp)
    | some mid =>
      rw [hop] at h
      simp only [Option.some_bind] at h
      obtain ⟨-, p, -, rfl⟩ := addInput_some_elim hop
      have h1 := addInputPure_frame hashFn st inp p
      have h2 := addInputs_frame h
      exact ⟨h2.1.trans h1.1, h2.2.1.trans h1.2.1,
             h2.2.2.1.trans h1.2.2.1, h2.2.2.2.trans h1.2.2.2⟩

/-! Lemmas about the candidate loop. -/

theorem handleCandidate_none_iff (deser : Bytes → Option Bytes) (st : State)
    (c : Candidate) :
    handleCandidate deser st c = none ↔ deser c.prog = none := by
  unfold handleCandidate
  cases hd : deser c.prog with
  | none => simp
  | some p => by_cases nc : st.noCover = true <;> simp [nc]

theorem handleCandidate_eq_cover (deser : Bytes → Option Bytes) (st : State)
    (c : Candidate) (p : Bytes) (hnc : st.noCover = false)
    (hd : deser c.prog = some p) :
    handleCandidate deser st c =
      some { st with workQueue := st.workQueue ++ [(p, c.minimized)] } := by
  simp [handleCandidate, hd, hnc]

theorem handleCandidate_eq_noCover (deser : Bytes → Option Bytes) (st : State)
    (c : Candidate) (p : Bytes) (hnc : st.noCover = true)
    (hd : deser c.prog = some p) :
    handleCandidate deser st c = some { st with corpus := st.corpus ++ [p] } := by
  simp [handleCandidate, hd, hnc]

theorem handleCandidates_frame {deser : Bytes → Option Bytes} :
    ∀ {cs : List Candidate} {st st' : State},
      handleCandidates deser st cs = some st' →
      st'.noCover = st.noCover ∧ st'.allTriaged = st.allTriaged ∧
      st'.newSignal = st.newSignal ∧ st'.corpusSignal = st.corpusSignal ∧
      st'.maxSignal = st.maxSignal ∧ st'.corpusHashes = st.corpusHashes
  | [], st, st', h => by
    simp only [handleCandidates, Option.some.injEq] at h
    subst h
    exact ⟨rfl, rfl, rfl, rfl, rfl, rfl⟩
  | c :: rest, st, st', h => by
    simp only [handleCandidates] at h
    cases hop : handleCandidate deser st c with
    | none => rw [hop] at h; exact absurd h (by simp)
    | some mid =>
      rw [hop] at h
      simp only [Option.some_bind] at h
      have h2 := handleCandidates_frame h
      have h1 : mid.noCover = st.noCover ∧ mid.allTriaged = st.allTriaged ∧
          mid.newSignal = st.newSignal ∧ mid.corpusSignal = st.corpusSignal ∧
          mid.maxSignal = st.maxSignal ∧ mid.corpusHashes = st.corpusHashes := by
        cases hd : deser c.prog with
        | none =>
          rw [(handleCandidate_none_iff deser st c).mpr hd] at hop
          exact absurd hop (by simp)
        | some p =>
          by_cases nc : st.noCover = true
          · rw [handleCandidate_eq_noCover deser st c p nc hd] at hop
            simp only [Option.some.injEq] at hop
            subst hop
            exact ⟨rfl, rfl, rfl, rfl, rfl, rfl⟩
          · rw [handleCandidate_eq_cover deser st c p
                  (Bool.not_eq_true _ |>.mp nc) hd] at hop
            simp only [Option.some.injEq] at hop
            subst hop
            exact ⟨rfl, rfl, rfl, rfl, rfl, rfl⟩
      exact ⟨h2.1.trans h1.1, h2.2.1.trans h1.2.1, h2.2.2.1.trans h1.2.2.1,
             h2.2.2.2.1.trans h1.2.2.2.1, h2.2.2.2.2.1.trans h1.2.2.2.2.1,
             h2.2.2.2.2.2.trans h1.2.2.2.2.2⟩

theorem handleCandidates_cover {deser : Bytes → Option Bytes} :
    ∀ {cs : List Candidate} {st st' : State}, st.noCover = false →
      handleCandidates deser st cs = some st' →
      ∃ ps, deserAll deser cs = some ps ∧
        st' = { st with
                  workQueue := st.workQueue ++ ps.zip (cs.map Candidate.minimized) }
  | [], st, st', hnc, h => by
    simp only [handleCandidates, Option.some.injEq] at h
    subst h
    exact ⟨[], rfl, by simp⟩
  | c :: rest, st, st', hnc, h => by
    simp only [handleCandidates] at h
    cases hd : deser c.prog with
    | none =>
      rw [(handleCandidate_none_iff deser st c).mpr hd] at h
      exact absurd h (by simp)
    | some p =>
      rw [handleCandidate_eq_cover deser st c p hnc hd] at h
      simp only [Option.some_bind] at h
      obtain ⟨ps, hps, hst⟩ := handleCandidates_cover (by simp [hnc]) h
      refine ⟨p :: ps, by simp [deserAll, hd, hps], ?_⟩
      rw [hst]
      simp [List.append_assoc]

theorem handleCandidates_noCover {deser : Bytes → Option Bytes} :
    ∀ {cs : List Candidate} {st st' : State}, st.noCover = true →
      handleCandidates deser st cs = some st' →
      ∃ ps, deserAll deser cs = some ps ∧
        st' = { st with corpus := st.corpus ++ ps }
  | [], st, st', hnc, h => by
    simp only [handleCandidates, Option.some.injEq] at h
    subst h
    exact ⟨[], rfl, by simp⟩
  | c :: rest, st, st', hnc, h => by
    simp only [handleCandidates] at h
    cases hd : deser c.prog with
    | none =>
      rw [(handleCandidate_none_iff deser st c).mpr hd] at h
      exact absurd h (by simp)
    | some p =>
      rw [handleCandidate_eq_noCover deser st c p hnc hd] at h
      simp only [Option.some_bind] at h
      obtain ⟨ps, hps, hst⟩ := handleCandidates_noCover (by simp [hnc]) h
      refine ⟨p :: ps, by simp [deserAll, hd, hps], ?_⟩
      rw [hst]
      simp [List.append_assoc]

/-! Lemmas about the processing of one poll result. -/

theorem updateAllTriaged_spec (flagLeak : Bool) (st : State)
    (cs : List Candidate) :
    (updateAllTriaged flagLeak st cs).1.allTriaged =
      (if cs.length = 0 ∧ st.allTriaged = 0 then 1 else st.allTriaged) ∧
    (updateAllTriaged flagLeak st cs).2 =
      (if cs.length = 0 ∧ st.allTriaged = 0 then flagLeak else false) ∧
    (updateAllTriaged flagLeak st cs).1.corpus = st.corpus ∧
    (updateAllTriaged flagLeak st cs).1.corpusHashes = st.corpusHashes ∧
    (updateAllTriaged flagLeak st cs).1.corpusSignal = st.corpusSignal ∧
    (updateAllTriaged flagLeak st cs).1.maxSignal = st.maxSignal ∧
    (updateAllTriaged flagLeak st cs).1.newSignal = st.newSignal ∧
    (updateAllTriaged flagLeak st cs).1.workQueue = st.workQueue ∧
    (updateAllTriaged flagLeak st cs).1.noCover = st.noCover := by
  unfold updateAllTriaged
  by_cases h : cs.length = 0 ∧ st.allTriaged = 0
  · rw [if_pos h, if_pos h, if_pos h]
    exact ⟨rfl, rfl, rfl, rfl, rfl, rfl, rfl, rfl, rfl⟩
  · rw [if_neg h, if_neg h, if_neg h]
    exact ⟨rfl, rfl, rfl, rfl, rfl, rfl, rfl, rfl, rfl⟩

theorem handlePollResult_elim {deser : Bytes → Option Bytes}
    {hashFn : Bytes → Nat} {flagLeak : Bool} {st : State} {r : PollRes}
    {o : PollOutcome} (h : handlePollResult deser hashFn flagLeak st r = some o) :
    ∃ st1 st2,
      addInputs deser hashFn (absorbMaxSignal st r.maxSignal) r.newInputs = some st1 ∧
      handleCandidates deser st1 r.candidates = some st2 ∧
      o.state = (updateAllTriaged flagLeak st2 r.candidates).1 ∧
      o.baselineScan = (updateAllTriaged flagLeak st2 r.candidates).2 ∧
      o.recordLastPoll =
        decide (r.newInputs.length = 0 ∧ r.candidates.length = 0) := by
  unfold handlePollResult at h
  cases h1 : addInputs deser hashFn (absorbMaxSignal st r.maxSignal) r.newInputs with
  | none => rw [h1] at h; exact absurd h (by simp)
  | some st1 =>
    rw [h1] at h
    simp only [Option.some_bind] at h
    cases h2 : handleCandidates deser st1 r.candidates with
    | none => rw [h2] at h; exact absurd h (by simp)
    | some st2 =>
      rw [h2] at h
      simp only [Option.some_bind, Option.some.injEq] at h
      subst h
      exact ⟨st1, st2, rfl, h2, rfl, rfl, rfl⟩

theorem handlePollResult_allTriaged {deser : Bytes → Option Bytes}
    {hashFn : Bytes → Nat} {flagLeak : Bool} {st : State} {r : PollRes}
    {o : PollOutcome} (h : handlePollResult deser hashFn flagLeak st r = some o) :
    o.state.allTriaged =
      (if r.candidates.length = 0 ∧ st.allTriaged = 0 then 1 else st.allTriaged) ∧
    o.baselineScan =
      (if r.candidates.length = 0 ∧ st.allTriaged = 0 then flagLeak else false) := by
  obtain ⟨st1, st2, h1, h2, hstate, hscan, -⟩ := handlePollResult_elim h
  have e0 : (absorbMaxSignal st r.maxSignal).allTriaged = st.allTriaged :=
    (absorbMaxSignal_frame st r.maxSignal).2.2.2.2.2.2
  have e1 : st1.allTriaged = st.allTriaged :=
    (addInputs_frame h1).2.2.2.trans e0
  have e2 : st2.allTriaged = st.allTriaged :=
    (handleCandidates_frame h2).2.1.trans e1
  have hu := updateAllTriaged_spec flagLeak st2 r.candidates
  rw [hstate, hscan, hu.1, hu.2.1, e2]
  exact ⟨rfl, rfl⟩

theorem runPolls_allTriaged_ne {deser : Bytes → Option Bytes}
    {hashFn : Bytes → Nat} {flagLeak : Bool} :
    ∀ {rs : List PollRes} {st st' : State},
      runPolls deser hashFn flagLeak st rs = some st' →
      st.allTriaged ≠ 0 → st'.allTriaged = st.allTriaged
  | [], st, st', h, _ => by
    simp only [runPolls, Option.some.injEq] at h
    subst h
    rfl
  | r :: rest, st, st', h, hne => by
    simp only [runPolls] at h
    cases ho : handlePollResult deser hashFn flagLeak st r with
    | none => rw [ho] at h; exact absurd h (by simp)
    | some o =>
      rw [ho] at h
      simp only [Option.some_bind] at h
      have := (handlePollResult_allTriaged ho).1
      rw [if_neg (fun hc => hne hc.2)] at this
      rw [runPolls_allTriaged_ne h (by rw [this]; exact hne)]
      exact this

theorem runPolls_allTriaged_zero {deser : Bytes → Option Bytes}
    {hashFn : Bytes → Nat} {flagLeak : Bool} :
    ∀ {rs : List PollRes} {st st' : State},
      runPolls deser hashFn flagLeak st rs = some st' →
      st.allTriaged = 0 →
      st'.allTriaged = (if rs.any (fun r => r.candidates.isEmpty) then 1 else 0)
  | [], st, st', h, hz => by
    simp only [runPolls, Option.some.injEq] at h
    subst h
    simpa using hz
  | r :: rest, st, st', h, hz => by
    simp only [runPolls] at h
    cases ho : handlePollResult deser hashFn flagLeak st r with
    | none => rw [ho] at h; exact absurd h (by simp)
    | some o =>
      rw [ho] at h
      simp only [Option.some_bind] at h
      have hat := (handlePollResult_allTriaged ho).1
      by_cases hc : r.candidates.length = 0
      · rw [if_pos ⟨hc, hz⟩] at hat
        have : st'.allTriaged = 1 := by
          rw [runPolls_allTriaged_ne h (by rw [hat]; omega)]
          exact hat
        rw [this]
        have : r.candidates.isEmpty = true := by
          rw [List.isEmpty_iff]
          exact List.length_eq_zero.mp hc
        simp [List.any_cons, this]
      · rw [if_neg (fun hcc => hc hcc.1)] at hat
        rw [runPolls_allTriaged_zero h (hat.trans hz)]
        have : r.candidates.isEmpty = false := by
          rw [List.isEmpty_eq_false_iff_exists_mem]
          cases hcs : r.candidates with
          | nil => exact absurd (by simp [hcs]) hc
          | cons x xs => exact ⟨x, by simp [hcs]⟩
        simp [List.any_cons, this]

/-! Lemmas about drain and publication of new signal. -/

theorem newSignal_publishAll :
    ∀ (ls : List (List Nat)) (st : State) (t : Nat),
      t ∈ (publishAll st ls).newSignal ↔
        t ∈ st.newSignal ∨ ∃ l ∈ ls, t ∈ l
  | [], st, t => by simp [publishAll]
  | ts :: rest, st, t => by
    simp only [publishAll]
    rw [newSignal_publishAll rest]
    simp only [publishNewSignal, mem_SignalAdd, List.exists_mem_cons_iff]
    tauto

theorem addInputs_maxSignal_mono {deser : Bytes → Option Bytes}
    {hashFn : Bytes → Nat} :
    ∀ {inps : List RpcInput} {st st' : State},
      addInputs deser hashFn st inps = some st' → st.maxSignal ⊆ st'.maxSignal
  | [], st, st', h => by
    simp only [addInputs, Option.some.injEq] at h
    subst h
    exact Finset.Subset.refl _
  | inp :: rest, st, st', h => by
    simp only [addInputs] at h
    cases hop : addInput deser hashFn st inp with
    | none => rw [hop] at h; exact absurd h (by simp)
    | some mid =>
      rw [hop] at h
      simp only [Option.some_bind] at h
      exact (addInput_maxSignal_mono hop).trans (addInputs_maxSignal_mono h)

/-- The poll-loop decision equals the disjunctive normal form used in the
amended claim C2. -/
theorem pollDecision_eq :
    ∀ p wc e : Bool, pollDecision p wc e = (p && wc || (!p && e)) := by
  decide

/-! Lemmas about the enabled-call parsing of `buildCallList`. -/

theorem parseEnabledList_mem {numSyscalls : Nat} :
    ∀ {l : List GoString} {s : Finset Nat},
      parseEnabledList numSyscalls l = some s →
      ∀ c, c ∈ s ↔ ∃ id ∈ l, parseUint64 id = some c
  | [], s, h, c => by
    simp only [parseEnabledList, Option.some.injEq] at h
    subst h
    simp
  | id :: rest, s, h, c => by
    simp only [parseEnabledList] at h
    cases hp : parseUint64 id with
    | none => simp only [hp] at h; exact absurd h (by simp)
    | some n =>
      simp only [hp] at h
      by_cases hn : numSyscalls ≤ n
      · rw [if_pos hn] at h; exact absurd h (by simp)
      · rw [if_neg hn] at h
        cases hr : parseEnabledList numSyscalls rest with
        | none => rw [hr] at h; exact absurd h (by simp)
        | some s0 =>
          rw [hr] at h
          simp only [Option.map_some', Option.some.injEq] at h
          subst h
          have ih := parseEnabledList_mem hr c
          simp only [Finset.mem_insert, List.exists_mem_cons_iff, hp]
          rw [ih]
          constructor
          · rintro (rfl | hc)
            · exact Or.inl rfl
            · exact Or.inr hc
          · rintro (hc | hc)
            · exact Or.inl (Option.some.injEq _ _ ▸ hc.symm ▸ rfl)
            · exact Or.inr hc

theorem parseEnabledList_ok {numSyscalls : Nat} :
    ∀ {l : List GoString} {s : Finset Nat},
      parseEnabledList numSyscalls l = some s →
      ∀ id ∈ l, ∃ n, parseUint64 id = some n ∧ n < numSyscalls
  | [], s, _, id, hid => absurd hid (List.not_mem_nil id)
  | id0 :: rest, s, h, id, hid => by
    simp only [parseEnabledList] at h
    cases hp : parseUint64 id0 with
    | none => simp only [hp] at h; exact absurd h (by simp)
    | some n =>
      simp only [hp] at h
      by_cases hn : numSyscalls ≤ n
      · rw [if_pos hn] at h; exact absurd h (by simp)
      · rw [if_neg hn] at h
        cases hr : parseEnabledList numSyscalls rest with
        | none => rw [hr] at h; exact absurd h (by simp)
        | some s0 =>
          rcases List.mem_cons.mp hid with rfl | hmem
          · exact ⟨n, hp, by omega⟩
          · exact parseEnabledList_ok hr id hmem

/-! Claim theorems. -/

/-- Claim C1: for every sequence of `addInput` calls and absorptions of
manager-returned max signal that completes without a fatal error, the max
signal set is non-decreasing (at every intermediate point it contains the
earlier sets) and the corpus signal set stays a subset of the max signal
set at every point, provided the inclusion holds initially (it does for the
freshly initialized globals). -/
theorem signal_monotonicity (deser : Bytes → Option Bytes) (hashFn : Bytes → Nat)
    (st st' : State) (pre suf : List Op)
    (h : runOps deser hashFn st (pre ++ suf) = some st')
    (hinv : st.corpusSignal ⊆ st.maxSignal) :
    ∃ mid, runOps deser hashFn st pre = some mid ∧
      runOps deser hashFn mid suf = some st' ∧
      st.maxSignal ⊆ mid.maxSignal ∧ mid.maxSignal ⊆ st'.maxSignal ∧
      mid.corpusSignal ⊆ mid.maxSignal ∧ st'.corpusSignal ⊆ st'.maxSignal := by
  rw [runOps_append] at h
  cases hm : runOps deser hashFn st pre with
  | none => rw [hm] at h; exact absurd h (by simp)
  | some mid =>
    rw [hm] at h
    simp only [Option.some_bind] at h
    exact ⟨mid, rfl, h, runOps_maxSignal_mono hm, runOps_maxSignal_mono h,
           runOps_invariant hm hinv, runOps_invariant h (runOps_invariant hm hinv)⟩

/-- Witness for C1: a concrete two-operation run from the initial state. -/
theorem signal_monotonicity_witness :
    ∃ mid, runOps some (fun _ => 0) (initState false) [Op.add ⟨[1], [5]⟩] = some mid ∧
      runOps some (fun _ => 0) mid [Op.absorb [7]] =
        some { corpus := [[1]], corpusHashes := {0}, corpusSignal := {5},
               maxSignal := {7, 5}, newSignal := ∅, workQueue := [],
               noCover := false, allTriaged := 0 } ∧
      (initState false).maxSignal ⊆ mid.maxSignal ∧
      mid.maxSignal ⊆
        ({ corpus := [[1]], corpusHashes := {0}, corpusSignal := {5},
           maxSignal := {7, 5}, newSignal := ∅, workQueue := [],
           noCover := false, allTriaged := 0 } : State).maxSignal ∧
      mid.corpusSignal ⊆ mid.maxSignal ∧
      ({ corpus := [[1]], corpusHashes := {0}, corpusSignal := {5},
         maxSignal := {7, 5}, newSignal := ∅, workQueue := [],
         noCover := false, allTriaged := 0 } : State).corpusSignal ⊆
        ({ corpus := [[1]], corpusHashes := {0}, corpusSignal := {5},
           maxSignal := {7, 5}, newSignal := ∅, workQueue := [],
           noCover := false, allTriaged := 0 } : State).maxSignal :=
  signal_monotonicity some (fun _ => 0) (initState false)
    { corpus := [[1]], corpusHashes := {0}, corpusSignal := {5},
      maxSignal := {7, 5}, newSignal := ∅, workQueue := [],
      noCover := false, allTriaged := 0 }
    [Op.add ⟨[1], [5]⟩] [Op.absorb [7]] (by decide) (by decide)

/-- Claim C3: calling `addInput` twice with identical program bytes (whose
hash is not yet in the corpus) grows the corpus by exactly one entry in
total; the second call leaves both the corpus and the content-hash set
unchanged. -/
theorem corpus_dedup (deser : Bytes → Option Bytes) (hashFn : Bytes → Nat)
    (st st1 st2 : State) (inp : RpcInput)
    (hfresh : hashFn inp.prog ∉ st.corpusHashes)
    (h1 : addInput deser hashFn st inp = some st1)
    (h2 : addInput deser hashFn st1 inp = some st2) :
    st2.corpus.length = st.corpus.length + 1 ∧
    st2.corpus = st1.corpus ∧ st2.corpusHashes = st1.corpusHashes := by
  obtain ⟨nc, p, hd, rfl⟩ := addInput_some_elim h1
  obtain ⟨nc2, p2, hd2, rfl⟩ := addInput_some_elim h2
  have hfr := addInputPure_corpus_fresh hashFn st inp p hfresh
  have hdup : hashFn inp.prog ∈ (addInputPure hashFn st inp p).corpusHashes := by
    rw [hfr.2]
    exact Finset.mem_insert_self _ _
  have hdu := addInputPure_corpus_dup hashFn (addInputPure hashFn st inp p) inp p2 hdup
  refine ⟨?_, hdu.1, hdu.2⟩
  rw [hdu.1, hfr.1]
  simp

/-- Witness for C3: adding the same bytes twice from the initial state. -/
theorem corpus_dedup_witness :
    ({ corpus := [[1]], corpusHashes := {0}, corpusSignal := {5},
       maxSignal := {5}, newSignal := ∅, workQueue := [],
       noCover := false, allTriaged := 0 } : State).corpus.length =
      (initState false).corpus.length + 1 ∧
    ({ corpus := [[1]], corpusHashes := {0}, corpusSignal := {5},
       maxSignal := {5}, newSignal := ∅, workQueue := [],
       noCover := false, allTriaged := 0 } : State).corpus =
      ({ corpus := [[1]], corpusHashes := {0}, corpusSignal := {5},
         maxSignal := {5}, newSignal := ∅, workQueue := [],
         noCover := false, allTriaged := 0 } : State).corpus ∧
    ({ corpus := [[1]], corpusHashes := {0}, corpusSignal := {5},
       maxSignal := {5}, newSignal := ∅, workQueue := [],
       noCover := false, allTriaged := 0 } : State).corpusHashes =
      ({ corpus := [[1]], corpusHashes := {0}, corpusSignal := {5},
         maxSignal := {5}, newSignal := ∅, workQueue := [],
         noCover := false, allTriaged := 0 } : State).corpusHashes :=
  corpus_dedup some (fun _ => 0) (initState false)
    { corpus := [[1]], corpusHashes := {0}, corpusSignal := {5},
      maxSignal := {5}, newSignal := ∅, workQueue := [],
      noCover := false, allTriaged := 0 }
    { corpus := [[1]], corpusHashes := {0}, corpusSignal := {5},
      maxSignal := {5}, newSignal := ∅, workQueue := [],
      noCover := false, allTriaged := 0 }
    ⟨[1], [5]⟩ (by decide) (by decide) (by decide)

/-- Claim C4: a drain moves the whole `newSignal` set into the payload and
resets it, so an immediate re-drain yields the empty set, and a drain after
any sequence of publications (with none after the previous drain lost)
yields exactly the published tokens. -/
theorem drain_law :
    (∀ st : State, (drainNewSignal (drainNewSignal st).2).1 = ∅) ∧
    (∀ (st : State) (ls : List (List Nat)) (t : Nat),
      t ∈ (drainNewSignal (publishAll (drainNewSignal st).2 ls)).1 ↔
        ∃ l ∈ ls, t ∈ l) := by
  constructor
  · intro st
    rfl
  · intro st ls t
    show t ∈ (publishAll (drainNewSignal st).2 ls).newSignal ↔ _
    rw [newSignal_publishAll]
    simp [drainNewSignal]

/-- Claim C8: `addInput` is fatal in exactly two cases — coverage disabled,
or deserialization failure of the input bytes; and a candidate whose bytes
fail to deserialize is likewise fatal. -/
theorem addInput_fatal_iff (deser : Bytes → Option Bytes) (hashFn : Bytes → Nat)
    (st : State) (inp : RpcInput) (c : Candidate) :
    (addInput deser hashFn st inp = none ↔
      st.noCover = true ∨ deser inp.prog = none) ∧
    (handleCandidate deser st c = none ↔ deser c.prog = none) :=
  ⟨addInput_none_iff deser hashFn st inp, handleCandidate_none_iff deser st c⟩

/-- Claim C9: on an input whose hash is already in the corpus-hash set,
`addInput` leaves corpus and hash set unchanged but still extends both the
max and the corpus signal sets by the input tokens missing from max. -/
theorem addInput_dup_signal (deser : Bytes → Option Bytes) (hashFn : Bytes → Nat)
    (st st' : State) (inp : RpcInput)
    (hdup : hashFn inp.prog ∈ st.corpusHashes)
    (h : addInput deser hashFn st inp = some st') :
    st'.corpus = st.corpus ∧ st'.corpusHashes = st.corpusHashes ∧
    st'.maxSignal = st.maxSignal ∪ inp.signal.toFinset ∧
    st'.corpusSignal = st.corpusSignal ∪ (inp.signal.toFinset \ st.maxSignal) := by
  obtain ⟨nc, p, hd, rfl⟩ := addInput_some_elim h
  have hdu := addInputPure_corpus_dup hashFn st inp p hdup
  refine ⟨hdu.1, hdu.2, ?_, ?_⟩
  · ext t
    rw [addInputPure_maxSignal]
    simp [List.mem_toFinset]
  · ext t
    rw [addInputPure_corpusSignal]
    simp [List.mem_toFinset]

/-- Witness for C9: a duplicate input still widening the signal sets. -/
theorem addInput_dup_signal_witness :
    ({ corpus := [[1]], corpusHashes := {0}, corpusSignal := {5},
       maxSignal := {5, 9}, newSignal := ∅, workQueue := [],
       noCover := false, allTriaged := 0 } : State).corpus =
      ({ corpus := [[1]], corpusHashes := {0}, corpusSignal := ∅,
         maxSignal := {9}, newSignal := ∅, workQueue := [],
         noCover := false, allTriaged := 0 } : State).corpus ∧
    ({ corpus := [[1]], corpusHashes := {0}, corpusSignal := {5},
       maxSignal := {5, 9}, newSignal := ∅, workQueue := [],
       noCover := false, allTriaged := 0 } : State).corpusHashes =
      ({ corpus := [[1]], corpusHashes := {0}, corpusSignal := ∅,
         maxSignal := {9}, newSignal := ∅, workQueue := [],
         noCover := false, allTriaged := 0 } : State).corpusHashes ∧
    ({ corpus := [[1]], corpusHashes := {0}, corpusSignal := {5},
       maxSignal := {5, 9}, newSignal := ∅, workQueue := [],
       noCover := false, allTriaged := 0 } : State).maxSignal =
      ({ corpus := [[1]], corpusHashes := {0}, corpusSignal := ∅,
         maxSignal := {9}, newSignal := ∅, workQueue := [],
         noCover := false, allTriaged := 0 } : State).maxSignal ∪
        ([5, 9] : List Nat).toFinset ∧
    ({ corpus := [[1]], corpusHashes := {0}, corpusSignal := {5},
       maxSignal := {5, 9}, newSignal := ∅, workQueue := [],
       noCover := false, allTriaged := 0 } : State).corpusSignal =
      ({ corpus := [[1]], corpusHashes := {0}, corpusSignal := ∅,
         maxSignal := {9}, newSignal := ∅, workQueue := [],
         noCover := false, allTriaged := 0 } : State).corpusSignal ∪
        (([5, 9] : List Nat).toFinset \
          ({ corpus := [[1]], corpusHashes := {0}, corpusSignal := ∅,
             maxSignal := {9}, newSignal := ∅, workQueue := [],
             noCover := false, allTriaged := 0 } : State).maxSignal) :=
  addInput_dup_signal some (fun _ => 0)
    { corpus := [[1]], corpusHashes := {0}, corpusSignal := ∅,
      maxSignal := {9}, newSignal := ∅, workQueue := [],
      noCover := false, allTriaged := 0 }
    { corpus := [[1]], corpusHashes := {0}, corpusSignal := {5},
      maxSignal := {5, 9}, newSignal := ∅, workQueue := [],
      noCover := false, allTriaged := 0 }
    ⟨[1], [5, 9]⟩ (by decide) (by decide)

/-- Claim C10: with coverage disabled, the candidate loop appends each
deserialized candidate to the corpus without consulting or changing the
content-hash set, so the same candidate bytes received twice yield two
corpus entries. -/
theorem candidates_no_dedup (deser : Bytes → Option Bytes) (st : State)
    (c : Candidate) (p : Bytes)
    (hnc : st.noCover = true) (hd : deser c.prog = some p) :
    handleCandidates deser st [c, c] =
      some { st with corpus := st.corpus ++ [p, p] } := by
  have h1 := handleCandidate_eq_noCover deser st c p hnc hd
  have h2 := handleCandidate_eq_noCover deser
    { st with corpus := st.corpus ++ [p] } c p (by simp [hnc]) hd
  simp only [handleCandidates, h1, h2, Option.some_bind, Option.some.injEq]
  simp

/-- Witness for C10: the same candidate twice with coverage disabled. -/
theorem candidates_no_dedup_witness :
    handleCandidates some (initState true) [⟨[2], true⟩, ⟨[2], true⟩] =
      some { initState true with corpus := (initState true).corpus ++ [[2], [2]] } :=
  candidates_no_dedup some (initState true) ⟨[2], true⟩ [2] (by decide) (by decide)

/-- Claim C2 counterexample: on a wake where the `needPoll` pulse fired but
`wantCandidates` is false (and over 10 seconds have elapsed), the loop skips
the poll via `continue` (lines 273-275), so the claimed sufficient condition
"poll if the pulse fired, or wantCandidates, or 10 s elapsed" is false. -/
theorem poll_condition_counterexample :
    specPollCondition true false true = true ∧
    pollDecision true false true = false := by
  decide

/-- Claim C2 (amended): a poll is performed iff the `needPoll` pulse fired
and `wantCandidates` is true, or the pulse did not fire and more than 10 s
elapsed since the last poll; and the last-poll timestamp is set to the
current instant exactly when a performed poll returned no new inputs and no
candidates, being left unchanged in every other case. -/
theorem pollster_iteration_spec (deser : Bytes → Option Bytes)
    (hashFn : Bytes → Nat) (flagLeak : Bool) (st : State) (p wc e : Bool)
    (lastPoll now : Nat) (r : PollRes) (st' : State) (lp' : Nat)
    (performed : Bool)
    (h : pollsterIteration deser hashFn flagLeak st p wc e lastPoll now r =
      some (st', lp', performed)) :
    performed = (p && wc || (!p && e)) ∧
    (performed = true →
      lp' = if r.newInputs.length = 0 ∧ r.candidates.length = 0 then now
            else lastPoll) ∧
    (performed = false → st' = st ∧ lp' = lastPoll) := by
  unfold pollsterIteration at h
  by_cases hd : pollDecision p wc e = true
  · rw [if_pos hd] at h
    cases ho : handlePollResult deser hashFn flagLeak st r with
    | none => rw [ho] at h; exact absurd h (by simp)
    | some o =>
      rw [ho] at h
      simp only [Option.map_some', Option.some.injEq, Prod.mk.injEq] at h
      obtain ⟨h1, h2, h3⟩ := h
      obtain ⟨st1, st2, -, -, -, -, hrec⟩ := handlePollResult_elim ho
      refine ⟨?_, ?_, ?_⟩
      · rw [← h3, ← pollDecision_eq]
        exact hd.symm
      · intro _
        rw [← h2, hrec]
        simp only [decide_eq_true_eq]
      · intro hf
        rw [← h3] at hf
        exact absurd hf (by decide)
  · rw [if_neg hd] at h
    simp only [Option.some.injEq, Prod.mk.injEq] at h
    obtain ⟨h1, h2, h3⟩ := h
    have hdf : pollDecision p wc e = false := Bool.eq_false_iff.mpr hd
    refine ⟨?_, ?_, fun _ => ⟨h1.symm, h2.symm⟩⟩
    · rw [← h3, ← pollDecision_eq]
      exact hdf.symm
    · intro ht
      rw [← h3] at ht
      exact absurd ht (by decide)

/-- Witness for C2 (amended): a timer wake past the 10 s limit performing a
poll whose empty result records the timestamp. -/
theorem pollster_iteration_spec_witness :
    (true : Bool) = (false && false || (!false && true)) ∧
    ((true : Bool) = true →
      (20 : Nat) =
        if (⟨[], [], []⟩ : PollRes).newInputs.length = 0 ∧
           (⟨[], [], []⟩ : PollRes).candidates.length = 0 then 20 else 0) ∧
    ((true : Bool) = false →
      ({ corpus := [], corpusHashes := ∅, corpusSignal := ∅, maxSignal := ∅,
         newSignal := ∅, workQueue := [], noCover := false,
         allTriaged := 1 } : State) = initState false ∧ (20 : Nat) = 0) :=
  pollster_iteration_spec some (fun _ => 0) false (initState false)
    false false true 0 20 ⟨[], [], []⟩
    { corpus := [], corpusHashes := ∅, corpusSignal := ∅, maxSignal := ∅,
      newSignal := ∅, workQueue := [], noCover := false, allTriaged := 1 }
    20 true (by decide)

/-- Claim C5: `allTriaged` starts at 0; over any successful sequence of
polls it ends at 1 exactly when some poll returned no candidates; once
nonzero it never changes; a single poll flips it to 1 (running the baseline
leak scan exactly when leak mode is on) precisely when it was 0 and the
result had no candidates; and the periodic leak callback scans only when
`allTriaged` is nonzero. -/
theorem allTriaged_latch (deser : Bytes → Option Bytes) (hashFn : Bytes → Nat)
    (flagLeak : Bool) :
    (∀ nc : Bool, (initState nc).allTriaged = 0) ∧
    (∀ (st st' : State) (rs : List PollRes),
      runPolls deser hashFn flagLeak st rs = some st' → st.allTriaged = 0 →
      st'.allTriaged = (if rs.any (fun r => r.candidates.isEmpty) then 1 else 0)) ∧
    (∀ (st st' : State) (rs : List PollRes),
      runPolls deser hashFn flagLeak st rs = some st' → st.allTriaged ≠ 0 →
      st'.allTriaged = st.allTriaged) ∧
    (∀ (st : State) (r : PollRes) (o : PollOutcome),
      handlePollResult deser hashFn flagLeak st r = some o →
      ((st.allTriaged = 0 ∧ r.candidates = []) →
        o.state.allTriaged = 1 ∧ o.baselineScan = flagLeak) ∧
      (st.allTriaged ≠ 0 →
        o.state.allTriaged = st.allTriaged ∧ o.baselineScan = false)) ∧
    (∀ n : Nat, leakCallback n = true ↔ n ≠ 0) := by
  refine ⟨fun _ => rfl,
          fun st st' rs h hz => runPolls_allTriaged_zero h hz,
          fun st st' rs h hn => runPolls_allTriaged_ne h hn, ?_, ?_⟩
  · intro st r o h
    have hat := handlePollResult_allTriaged h
    constructor
    · rintro ⟨hz, hc⟩
      have hcond : r.candidates.length = 0 ∧ st.allTriaged = 0 := ⟨by simp [hc], hz⟩
      rw [if_pos hcond, if_pos hcond] at hat
      exact hat
    · intro hn
      have hcond : ¬(r.candidates.length = 0 ∧ st.allTriaged = 0) :=
        fun hcc => hn hcc.2
      rw [if_neg hcond, if_neg hcond] at hat
      exact hat
  · intro n
    simp [leakCallback]

/-- Witness for C5: concrete polls flipping and preserving the latch. -/
theorem allTriaged_latch_witness :
    (initState false).allTriaged = 0 ∧
    ({ corpus := [], corpusHashes := ∅, corpusSignal := ∅, maxSignal := ∅,
       newSignal := ∅, workQueue := [], noCover := false,
       allTriaged := 1 } : State).allTriaged =
      (if [(⟨[], [], []⟩ : PollRes)].any (fun r => r.candidates.isEmpty)
       then 1 else 0) ∧
    ({ corpus := [], corpusHashes := ∅, corpusSignal := ∅, maxSignal := ∅,
       newSignal := ∅, workQueue := [([2], true)], noCover := false,
       allTriaged := 1 } : State).allTriaged =
      ({ corpus := [], corpusHashes := ∅, corpusSignal := ∅, maxSignal := ∅,
         newSignal := ∅, workQueue := [], noCover := false,
         allTriaged := 1 } : State).allTriaged ∧
    (({ state := { corpus := [], corpusHashes := ∅, corpusSignal := ∅,
                   maxSignal := ∅, newSignal := ∅, workQueue := [],
                   noCover := false, allTriaged := 1 },
        baselineScan := true, recordLastPoll := true } : PollOutcome).state.allTriaged = 1 ∧
      ({ state := { corpus := [], corpusHashes := ∅, corpusSignal := ∅,
                    maxSignal := ∅, newSignal := ∅, workQueue := [],
                    noCover := false, allTriaged := 1 },
         baselineScan := true, recordLastPoll := true } : PollOutcome).baselineScan = true) ∧
    (leakCallback 3 = true ↔ 3 ≠ 0) := by
  have T := allTriaged_latch some (fun _ => 0) true
  refine ⟨T.1 false, ?_, ?_, ?_, T.2.2.2.2 3⟩
  · exact T.2.1 (initState false)
      { corpus := [], corpusHashes := ∅, corpusSignal := ∅, maxSignal := ∅,
        newSignal := ∅, workQueue := [], noCover := false, allTriaged := 1 }
      [⟨[], [], []⟩] (by decide) (by decide)
  · exact T.2.2.1
      { corpus := [], corpusHashes := ∅, corpusSignal := ∅, maxSignal := ∅,
        newSignal := ∅, workQueue := [], noCover := false, allTriaged := 1 }
      { corpus := [], corpusHashes := ∅, corpusSignal := ∅, maxSignal := ∅,
        newSignal := ∅, workQueue := [([2], true)], noCover := false,
        allTriaged := 1 }
      [⟨[], [], [⟨[2], true⟩]⟩] (by decide) (by decide)
  · exact (T.2.2.2.1 (initState false) ⟨[], [], []⟩
      { state := { corpus := [], corpusHashes := ∅, corpusSignal := ∅,
                   maxSignal := ∅, newSignal := ∅, workQueue := [],
                   noCover := false, allTriaged := 1 },
        baselineScan := true, recordLastPoll := true } (by decide)).1
      ⟨by decide, rfl⟩

/-- Claim C7: processing a poll result (the bootstrap candidate loop is the
same code) absorbs the returned max signal into the max set, feeds every
returned input through `addInput`, and deserializes every candidate,
enqueueing `WorkCandidate{p, minimized}` items when coverage is enabled and
appending the programs directly to the corpus when coverage is disabled. -/
theorem poll_processing (deser : Bytes → Option Bytes) (hashFn : Bytes → Nat)
    (flagLeak : Bool) (st : State) (r : PollRes) (o : PollOutcome)
    (h : handlePollResult deser hashFn flagLeak st r = some o) :
    st.maxSignal ⊆ o.state.maxSignal ∧
    (∀ s ∈ r.maxSignal, s ∈ o.state.maxSignal) ∧
    ∃ st1, addInputs deser hashFn (absorbMaxSignal st r.maxSignal) r.newInputs =
        some st1 ∧
      (st.noCover = false →
        ∃ ps, deserAll deser r.candidates = some ps ∧
          o.state.workQueue =
            st1.workQueue ++ ps.zip (r.candidates.map Candidate.minimized) ∧
          o.state.corpus = st1.corpus) ∧
      (st.noCover = true →
        ∃ ps, deserAll deser r.candidates = some ps ∧
          o.state.corpus = st1.corpus ++ ps ∧
          o.state.workQueue = st1.workQueue) := by
  obtain ⟨st1, st2, h1, h2, hstate, hscan, hrec⟩ := handlePollResult_elim h
  have hu := updateAllTriaged_spec flagLeak st2 r.candidates
  have hcf := handleCandidates_frame h2
  have emax : o.state.maxSignal = st1.maxSignal := by
    rw [hstate, hu.2.2.2.2.2.1, hcf.2.2.2.2.1]
  have ecorpus : o.state.corpus = st2.corpus := by
    rw [hstate, hu.2.2.1]
  have ewq : o.state.workQueue = st2.workQueue := by
    rw [hstate, hu.2.2.2.2.2.2.2.1]
  have enc : st1.noCover = st.noCover := by
    rw [(addInputs_frame h1).1, (absorbMaxSignal_frame st r.maxSignal).2.2.2.2.2.1]
  refine ⟨?_, ?_, st1, h1, ?_, ?_⟩
  · intro t ht
    rw [emax]
    exact addInputs_maxSignal_mono h1
      ((absorbMaxSignal_maxSignal_mem st r.maxSignal t).mpr (Or.inl ht))
  · intro s hs
    rw [emax]
    exact addInputs_maxSignal_mono h1
      ((absorbMaxSignal_maxSignal_mem st r.maxSignal s).mpr (Or.inr hs))
  · intro hnc
    obtain ⟨ps, hps, hst2⟩ := handleCandidates_cover (enc.trans hnc) h2
    refine ⟨ps, hps, ?_, ?_⟩
    · rw [ewq, hst2]
    · rw [ecorpus, hst2]
  · intro hnc
    obtain ⟨ps, hps, hst2⟩ := handleCandidates_noCover (enc.trans hnc) h2
    refine ⟨ps, hps, ?_, ?_⟩
    · rw [ecorpus, hst2]
    · rw [ewq, hst2]

/-- Witness for C7: one poll result with signal, an input and a candidate,
processed with coverage enabled. -/
theorem poll_processing_witness :
    (initState false).maxSignal ⊆
      ({ state := { corpus := [[1]], corpusHashes := {0}, corpusSignal := {5},
                    maxSignal := {5, 9}, newSignal := ∅,
                    workQueue := [([2], true)], noCover := false,
                    allTriaged := 0 },
         baselineScan := false, recordLastPoll := false } : PollOutcome).state.maxSignal ∧
    (∀ s ∈ (⟨[9], [⟨[1], [5]⟩], [⟨[2], true⟩]⟩ : PollRes).maxSignal,
      s ∈ ({ state := { corpus := [[1]], corpusHashes := {0}, corpusSignal := {5},
                        maxSignal := {5, 9}, newSignal := ∅,
                        workQueue := [([2], true)], noCover := false,
                        allTriaged := 0 },
             baselineScan := false, recordLastPoll := false } : PollOutcome).state.maxSignal) ∧
    ∃ st1, addInputs some (fun _ => 0)
        (absorbMaxSignal (initState false)
          (⟨[9], [⟨[1], [5]⟩], [⟨[2], true⟩]⟩ : PollRes).maxSignal)
        (⟨[9], [⟨[1], [5]⟩], [⟨[2], true⟩]⟩ : PollRes).newInputs = some st1 ∧
      ∃ ps, deserAll some (⟨[9], [⟨[1], [5]⟩], [⟨[2], true⟩]⟩ : PollRes).candidates =
          some ps ∧
        ({ state := { corpus := [[1]], corpusHashes := {0}, corpusSignal := {5},
                      maxSignal := {5, 9}, newSignal := ∅,
                      workQueue := [([2], true)], noCover := false,
                      allTriaged := 0 },
           baselineScan := false, recordLastPoll := false } : PollOutcome).state.workQueue =
          st1.workQueue ++
            ps.zip ((⟨[9], [⟨[1], [5]⟩], [⟨[2], true⟩]⟩ : PollRes).candidates.map
              Candidate.minimized) ∧
        ({ state := { corpus := [[1]], corpusHashes := {0}, corpusSignal := {5},
                      maxSignal := {5, 9}, newSignal := ∅,
                      workQueue := [([2], true)], noCover := false,
                      allTriaged := 0 },
           baselineScan := false, recordLastPoll := false } : PollOutcome).state.corpus =
          st1.corpus := by
  have T := poll_processing some (fun _ => 0) false (initState false)
    ⟨[9], [⟨[1], [5]⟩], [⟨[2], true⟩]⟩
    { state := { corpus := [[1]], corpusHashes := {0}, corpusSignal := {5},
                 maxSignal := {5, 9}, newSignal := ∅,
                 workQueue := [([2], true)], noCover := false,
                 allTriaged := 0 },
      baselineScan := false, recordLastPoll := false } (by decide)
  obtain ⟨hs, hm, st1, h1, hcov, -⟩ := T
  exact ⟨hs, hm, st1, h1, hcov rfl⟩

/-! Lemmas and claim for `buildCallList`. -/

theorem buildCallList_inter {numSyscalls : Nat} {enabled : GoString}
    {supp : Finset Nat} {transF : Finset Nat → Finset Nat} {calls : Finset Nat}
    (hne : enabled ≠ [])
    (h : buildCallList numSyscalls enabled (some supp) transF = some calls) :
    ∃ base, parseEnabledList numSyscalls (splitOnComma enabled) = some base ∧
      calls = (base ∩ supp) ∩ transF (base ∩ supp) := by
  unfold buildCallList at h
  rw [if_pos hne] at h
  cases hb : parseEnabledList numSyscalls (splitOnComma enabled) with
  | none => rw [hb] at h; exact absurd h (by simp)
  | some base =>
    rw [hb] at h
    simp only [Option.map_some', Option.some.injEq] at h
    refine ⟨base, rfl, ?_⟩
    rw [← h]
    have hbs : base.filter (fun c => c ∈ supp) = base ∩ supp := by
      ext c
      simp [Finset.mem_filter, Finset.mem_inter]
    ext c
    simp only [Finset.mem_filter, Finset.mem_inter, hbs]

theorem buildCallList_empty {numSyscalls : Nat} {supp : Finset Nat}
    {transF : Finset Nat → Finset Nat} {calls : Finset Nat}
    (h : buildCallList numSyscalls [] (some supp) transF = some calls) :
    calls = (Finset.range numSyscalls ∩ supp) ∩
      transF (Finset.range numSyscalls ∩ supp) := by
  unfold buildCallList at h
  rw [if_neg (by simp)] at h
  simp only [Option.map_some', Option.some.injEq] at h
  rw [← h]
  have hbs : (Finset.range numSyscalls).filter (fun c => c ∈ supp) =
      Finset.range numSyscalls ∩ supp := by
    ext c
    simp [Finset.mem_filter, Finset.mem_inter]
  ext c
  simp only [Finset.mem_filter, Finset.mem_inter, hbs]

theorem buildCallList_fatal {numSyscalls : Nat} {enabled : GoString}
    {supp : Option (Finset Nat)} {transF : Finset Nat → Finset Nat}
    (hne : enabled ≠ [])
    (hbad : ∃ id ∈ splitOnComma enabled,
      ∀ n, parseUint64 id = some n → numSyscalls ≤ n) :
    buildCallList numSyscalls enabled supp transF = none := by
  unfold buildCallList
  rw [if_pos hne]
  cases hb : parseEnabledList numSyscalls (splitOnComma enabled) with
  | none => rfl
  | some s =>
    obtain ⟨id, hid, hbadid⟩ := hbad
    obtain ⟨n, hn, hlt⟩ := parseEnabledList_ok hb id hid
    exact absurd (hbadid n hn) (by omega)

/-- Claim C6: with host-support detection succeeding, `buildCallList`
returns exactly the intersection of (a) the enabled set of the manager — the ids
parsed from the comma-separated string, or all target syscalls when
the string is empty — with (b) the host-supported set and (c) the
transitively enabled set computed on that intersection; and any id that
fails to parse or is at least the number of target syscalls is fatal. -/
theorem buildCallList_spec :
    (∀ (numSyscalls : Nat) (enabled : GoString) (supp : Finset Nat)
        (transF : Finset Nat → Finset Nat) (calls : Finset Nat),
      enabled ≠ [] →
      buildCallList numSyscalls enabled (some supp) transF = some calls →
      ∃ base : Finset Nat,
        parseEnabledList numSyscalls (splitOnComma enabled) = some base ∧
        (∀ c, c ∈ base ↔ ∃ id ∈ splitOnComma enabled, parseUint64 id = some c) ∧
        calls = (base ∩ supp) ∩ transF (base ∩ supp)) ∧
    (∀ (numSyscalls : Nat) (supp : Finset Nat)
        (transF : Finset Nat → Finset Nat) (calls : Finset Nat),
      buildCallList numSyscalls [] (some supp) transF = some calls →
      calls = (Finset.range numSyscalls ∩ supp) ∩
        transF (Finset.range numSyscalls ∩ supp)) ∧
    (∀ (numSyscalls : Nat) (enabled : GoString) (supp : Option (Finset Nat))
        (transF : Finset Nat → Finset Nat),
      enabled ≠ [] →
      (∃ id ∈ splitOnComma enabled,
        ∀ n, parseUint64 id = some n → numSyscalls ≤ n) →
      buildCallList numSyscalls enabled supp transF = none) := by
  refine ⟨?_, ?_, ?_⟩
  · intro numSyscalls enabled supp transF calls hne h
    obtain ⟨base, hb, hcalls⟩ := buildCallList_inter hne h
    exact ⟨base, hb, parseEnabledList_mem hb, hcalls⟩
  · intro numSyscalls supp transF calls h
    exact buildCallList_empty h
  · intro numSyscalls enabled supp transF hne hbad
    exact buildCallList_fatal hne hbad

/-- Witness for C6: the enabled string "1,2" over three syscalls with host
support {1}, the empty enabled string, and a fatal out-of-range id "7". -/
theorem buildCallList_spec_witness :
    (∃ base : Finset Nat,
      parseEnabledList 3 (splitOnComma ['1', ',', '2']) = some base ∧
      (∀ c, c ∈ base ↔
        ∃ id ∈ splitOnComma ['1', ',', '2'], parseUint64 id = some c) ∧
      ({1} : Finset Nat) = (base ∩ {1}) ∩ id (base ∩ {1})) ∧
    (({2} : Finset Nat) = (Finset.range 3 ∩ {2, 5}) ∩
      id (Finset.range 3 ∩ {2, 5})) ∧
    buildCallList 3 ['7'] (some {1}) id = none := by
  have T := buildCallList_spec
  refine ⟨T.1 3 ['1', ',', '2'] {1} id {1} (by decide) (by decide),
          T.2.1 3 {2, 5} id {2} (by decide),
          T.2.2 3 ['7'] (some {1}) id (by decide) ⟨['7'], by decide, ?_⟩⟩
  intro n hn
  have h7 : parseUint64 ['7'] = some 7 := by decide
  rw [h7] at hn
  have : (7 : Nat) = n := Option.some.inj hn
  omega

end SyzFuzzer
